import Mathlib

set_option maxRecDepth 10000

/-!
Shallow embedding of the Xiangqi rules engine and search engine
(`src/utils/xiangqi.ts`, `src/utils/ai.ts`, `src/types.ts`) in Lean 4.

Boards are lists of rows, each row a list of optional pieces; the TS type
`BoardState = (Piece | null)[][]` promises a 10x9 grid, captured here by the
predicate `boardWF`.  Positions carry `Int` coordinates, matching TS numbers
on the integral inputs the engine receives.  The per-instance `id` field of
TS pieces is UI-only (the spec mandates it "must not affect equality or rule
evaluation") and is omitted.
-/

-- ===== types.ts =====

inductive Color where
  | red
  | black
deriving DecidableEq, Repr

inductive PieceType where
  | general
  | advisor
  | elephant
  | horse
  | rook
  | cannon
  | soldier
deriving DecidableEq, Repr

structure Piece where
  type : PieceType
  color : Color
deriving DecidableEq, Repr

/-- `Position` of types.ts: x = column (0-8), y = row (0-9). -/
structure Pos where
  x : Int
  y : Int
deriving DecidableEq, Repr

/-- `Move` of types.ts; `from`/`to` are Lean keywords, renamed `fromPos`/`toPos`.
The optional `score` field is never read by the engine and is omitted. -/
structure Move where
  fromPos : Pos
  toPos : Pos
deriving DecidableEq, Repr

inductive GameStatus where
  | playing
  | redWin
  | blackWin
  | draw
deriving DecidableEq, Repr

abbrev BoardState := List (List (Option Piece))

/-- The well-formedness the TS code assumes of every `BoardState`:
10 rows of 9 cells. -/
def boardWF (b : BoardState) : Prop :=
  b.length = 10 ∧ ∀ row ∈ b, row.length = 9

instance : DecidablePred boardWF := fun b => by
  unfold boardWF
  infer_instance

-- ===== xiangqi.ts : helpers =====

/-- `isValidPos` of xiangqi.ts. -/
def isValidPos (p : Pos) : Bool :=
  decide (0 ≤ p.x ∧ p.x ≤ 8 ∧ 0 ≤ p.y ∧ p.y ≤ 9)

/-- Raw TS array access `board[y][x]`; out-of-range access gives `none`
(every call site in the source is in range on well-formed boards). -/
def rawCell (board : BoardState) (y x : Int) : Option Piece :=
  if y < 0 ∨ x < 0 then none
  else (board[y.toNat]?.bind (fun row => row[x.toNat]?)).join

/-- `getPieceAt` of xiangqi.ts. -/
def getPieceAt (board : BoardState) (pos : Pos) : Option Piece :=
  if isValidPos pos then rawCell board pos.y pos.x else none

/-- `countPiecesBetween` of xiangqi.ts: occupied cells strictly between two
positions sharing a row or a column (0 when they share neither, mirroring the
TS fallthrough). -/
def countPiecesBetween (board : BoardState) (p1 p2 : Pos) : Nat :=
  if p1.x = p2.x then
    let lo := min p1.y p2.y
    let hi := max p1.y p2.y
    ((List.range (hi - lo - 1).toNat).map (fun i => lo + 1 + (i : Int))).countP
      (fun y => (rawCell board y p1.x).isSome)
  else if p1.y = p2.y then
    let lo := min p1.x p2.x
    let hi := max p1.x p2.x
    ((List.range (hi - lo - 1).toNat).map (fun i => lo + 1 + (i : Int))).countP
      (fun x => (rawCell board p1.y x).isSome)
  else 0

/-- `isValidMove` of xiangqi.ts: the geometric legality predicate. -/
def isValidMove (board : BoardState) (move : Move) (turnColor : Color) : Bool :=
  let fromP := move.fromPos
  let toP := move.toPos
  match getPieceAt board fromP with
  | none => false
  | some piece =>
    -- Basic checks, in source order
    if piece.color ≠ turnColor then false
    else if ¬ (isValidPos toP = true) then false
    else if fromP.x = toP.x ∧ fromP.y = toP.y then false
    else if (match getPieceAt board toP with
             | some t => decide (t.color = turnColor)
             | none => false) then false  -- Friendly fire
    else
      let target := getPieceAt board toP
      let dx := toP.x - fromP.x
      let dy := toP.y - fromP.y
      let adx := dx.natAbs
      let ady := dy.natAbs
      match piece.type with
      | PieceType.general =>
        -- Must stay in palace (x: 3-5); Black palace y: 0-2, Red palace y: 7-9
        if toP.x < 3 ∨ 5 < toP.x then false
        else if piece.color = Color.black ∧ 2 < toP.y then false
        else if piece.color = Color.red ∧ toP.y < 7 then false
        else decide (adx + ady = 1)
      | PieceType.advisor =>
        if toP.x < 3 ∨ 5 < toP.x then false
        else if piece.color = Color.black ∧ 2 < toP.y then false
        else if piece.color = Color.red ∧ toP.y < 7 then false
        else decide (adx = 1 ∧ ady = 1)
      | PieceType.elephant =>
        -- Cant cross river
        if piece.color = Color.black ∧ 4 < toP.y then false
        else if piece.color = Color.red ∧ toP.y < 5 then false
        else if adx ≠ 2 ∨ ady ≠ 2 then false
        -- Check eye
        else if (getPieceAt board ⟨fromP.x + dx / 2, fromP.y + dy / 2⟩).isSome then false
        else true
      | PieceType.horse =>
        if ¬ ((adx = 1 ∧ ady = 2) ∨ (adx = 2 ∧ ady = 1)) then false
        else
          -- Check leg
          let legPos : Pos :=
            ⟨if adx = 2 then fromP.x + dx / 2 else fromP.x,
             if ady = 2 then fromP.y + dy / 2 else fromP.y⟩
          if (getPieceAt board legPos).isSome then false else true
      | PieceType.rook =>
        if fromP.x ≠ toP.x ∧ fromP.y ≠ toP.y then false
        else decide (countPiecesBetween board fromP toP = 0)
      | PieceType.cannon =>
        if fromP.x ≠ toP.x ∧ fromP.y ≠ toP.y then false
        else
          let cnt := countPiecesBetween board fromP toP
          match target with
          | some _ => decide (cnt = 1)  -- Capture needs 1 screen
          | none => decide (cnt = 0)    -- Move needs 0 screens
      | PieceType.soldier =>
        let forward : Int := if piece.color = Color.red then -1 else 1
        -- Can't move backwards
        if piece.color = Color.red ∧ 0 < dy then false
        else if piece.color = Color.black ∧ dy < 0 then false
        else
          -- Before river: only forward
          let crossedRiver :=
            if piece.color = Color.red then decide (fromP.y ≤ 4) else decide (5 ≤ fromP.y)
          if crossedRiver then decide (adx + ady = 1)  -- After river: forward or side, 1 step
          else decide (dx = 0 ∧ dy = forward)

/-- Row-major enumeration of the 90 squares as (row, column) pairs, matching
the TS double loop `for y in 0..9, for x in 0..8`. -/
def squaresRM : List (Nat × Nat) :=
  (List.range 10).flatMap (fun y => (List.range 9).map (fun x => (y, x)))

/-- `simulateMove` of xiangqi.ts.  The TS copies the board, then assigns
`newBoard[to] = newBoard[from]` (the right-hand read happens before any cell
of the copy has changed) and `newBoard[from] = null`. -/
def setCell (board : BoardState) (p : Pos) (v : Option Piece) : BoardState :=
  if p.y < 0 ∨ p.x < 0 then board
  else match board[p.y.toNat]? with
       | some row => board.set p.y.toNat (row.set p.x.toNat v)
       | none => board

def simulateMove (board : BoardState) (move : Move) : BoardState :=
  let b1 := setCell board move.toPos (rawCell board move.fromPos.y move.fromPos.x)
  setCell b1 move.fromPos none

/-- `findGeneral` of xiangqi.ts: first (row-major) General of the color. -/
def findGeneral (board : BoardState) (color : Color) : Option Pos :=
  (squaresRM.find? (fun s =>
    match rawCell board (s.1 : Int) (s.2 : Int) with
    | some p => decide (p.type = PieceType.general ∧ p.color = color)
    | none => false)).map (fun s => ⟨(s.2 : Int), (s.1 : Int)⟩)

/-- `areGeneralsFacing` of xiangqi.ts. -/
def areGeneralsFacing (board : BoardState) : Bool :=
  match findGeneral board Color.red, findGeneral board Color.black with
  | some rGen, some bGen =>
    if rGen.x = bGen.x then decide (countPiecesBetween board rGen bGen = 0) else false
  | _, _ => false

/-- `isCheck` of xiangqi.ts. -/
def isCheck (board : BoardState) (color : Color) : Bool :=
  match findGeneral board color with
  | none => true
  | some generalPos =>
    let enemyColor := if color = Color.red then Color.black else Color.red
    squaresRM.any (fun s =>
      match rawCell board (s.1 : Int) (s.2 : Int) with
      | some p =>
        decide (p.color = enemyColor) &&
          isValidMove board ⟨⟨(s.2 : Int), (s.1 : Int)⟩, generalPos⟩ enemyColor
      | none => false)

/-- `getValidMoves` of xiangqi.ts: full legal-move enumeration. -/
def getValidMoves (board : BoardState) (turn : Color) : List Move :=
  squaresRM.flatMap (fun s =>
    match rawCell board (s.1 : Int) (s.2 : Int) with
    | some piece =>
      if piece.color = turn then
        squaresRM.filterMap (fun t =>
          let move : Move := ⟨⟨(s.2 : Int), (s.1 : Int)⟩, ⟨(t.2 : Int), (t.1 : Int)⟩⟩
          if isValidMove board move turn then
            let tempBoard := simulateMove board move
            -- You cannot make a move that leaves your general checked
            if ¬ (isCheck tempBoard turn = true) ∧ ¬ (areGeneralsFacing tempBoard = true)
            then some move else none
          else none)
      else []
    | none => [])

/-- `getGameStatus` of xiangqi.ts. -/
def getGameStatus (board : BoardState) (turn : Color) : GameStatus :=
  if getValidMoves board turn = [] then
    if turn = Color.red then GameStatus.blackWin else GameStatus.redWin
  else GameStatus.playing

-- ===== xiangqi.ts : FEN converter =====

/-- The character the TS `PieceType` enum value carries (always lowercase). -/
def pieceTypeChar : PieceType → Char
  | PieceType.general => 'k'
  | PieceType.advisor => 'a'
  | PieceType.elephant => 'b'
  | PieceType.horse => 'n'
  | PieceType.rook => 'r'
  | PieceType.cannon => 'c'
  | PieceType.soldier => 'p'

/-- FEN character of a piece: uppercase for RED, lowercase for BLACK. -/
def pieceFenChar (p : Piece) : Char :=
  if p.color = Color.red then (pieceTypeChar p.type).toUpper else pieceTypeChar p.type

def digitChar (n : Nat) : Char := Char.ofNat (48 + n)

/-- The 9 cells of row `y` as read by the `boardToFen` inner loop. -/
def cellsRow (board : BoardState) (y : Nat) : List (Option Piece) :=
  (List.range 9).map (fun x : Nat => rawCell board (y : Int) (x : Int))

/-- The per-row encoding loop of `boardToFen`, with the pending
`emptyCount` made explicit as the second argument. -/
def encodeRowGo : List (Option Piece) → Nat → List Char
  | [], cnt => if 0 < cnt then [digitChar cnt] else []
  | none :: rest, cnt => encodeRowGo rest (cnt + 1)
  | some p :: rest, cnt =>
    (if 0 < cnt then [digitChar cnt] else []) ++ pieceFenChar p :: encodeRowGo rest 0

def rowFen (board : BoardState) (y : Nat) : List Char :=
  encodeRowGo (cellsRow board y) 0

/-- Rows joined by '/', appended after every row but the last (`if y < 9`). -/
def joinRows : List (List Char) → List Char
  | [] => []
  | [r] => r
  | r :: rest => r ++ '/' :: joinRows rest

/-- `boardToFen` of xiangqi.ts. -/
def boardToFen (board : BoardState) (turn : Color) : String :=
  String.mk
    (joinRows ((List.range 10).map (rowFen board)) ++
      ' ' :: (if turn = Color.red then 'w' else 'b') :: " - - 0 1".data)

/-- Single-character `String.split`, as JS `split(sep)` behaves for the
one-character separators used by `fenToBoard`. -/
def splitOnChar (sep : Char) : List Char → List (List Char)
  | [] => [[]]
  | c :: rest =>
    match splitOnChar sep rest with
    | [] => if c = sep then [[], []] else [[c]]  -- unreachable: result is never []
    | h :: t => if c = sep then [] :: h :: t else (c :: h) :: t

def charPieceType : Char → Option PieceType :=
  fun c =>
    if c = 'k' then some PieceType.general
    else if c = 'a' then some PieceType.advisor
    else if c = 'b' then some PieceType.elephant
    else if c = 'n' then some PieceType.horse
    else if c = 'r' then some PieceType.rook
    else if c = 'c' then some PieceType.cannon
    else if c = 'p' then some PieceType.soldier
    else none

/-- The piece a FEN character denotes: RED when the character equals its own
uppercasing (the JS test `char === char.toUpperCase()`), type from the
lowercased character. -/
def charPiece (c : Char) : Option Piece :=
  let color := if c.toUpper = c then Color.red else Color.black
  (charPieceType c.toLower).map (fun t => { type := t, color := color })

/-- The per-row decoding loop of `fenToBoard`: cursor `x` advances by digit
values and by one per piece character stored (stores only happen at `x < 9`).
A character that is neither a digit nor a known piece letter cannot occur in
any FEN this program produces or ships; the TS would store an object with an
invalid `type` string there, which `Piece` cannot represent, so such a
character advances the cursor without storing. -/
def decodeRowGo : List Char → Nat → List (Option Piece) → List (Option Piece)
  | [], _, row => row
  | c :: rest, x, row =>
    if c.isDigit then decodeRowGo rest (x + (c.toNat - 48)) row
    else match charPiece c with
      | some pc =>
        if x < 9 then decodeRowGo rest (x + 1) (row.set x (some pc))
        else decodeRowGo rest x row
      | none =>
        if x < 9 then decodeRowGo rest (x + 1) row
        else decodeRowGo rest x row

/-- `fenToBoard` of xiangqi.ts: start from a 10x9 grid of empty cells and
fill each row from the corresponding segment of the FEN's board part
(`fen.split(' ')[0].split('/')`).  The TS `rows.forEach` writes row `y` of
the grid from segment `y`; rows with no segment stay empty. -/
def fenToBoard (fen : String) : BoardState :=
  let boardPart := (splitOnChar ' ' fen.data).headD []
  let rows := splitOnChar '/' boardPart
  (List.range 10).map (fun y => decodeRowGo (rows.getD y []) 0 (List.replicate 9 none))

/-- `createInitialBoard` of xiangqi.ts. -/
def createInitialBoard : BoardState :=
  fenToBoard "rnbakabnr/9/1c5c1/p1p1p1p1p/9/9/P1P1P1P1P/1C5C1/9/RNBAKABNR"

-- ===== ai.ts =====

/-- `PIECE_VALUES` of ai.ts. -/
def pieceValue : PieceType → Int
  | PieceType.general => 10000
  | PieceType.rook => 90
  | PieceType.cannon => 45
  | PieceType.horse => 40
  | PieceType.elephant => 20
  | PieceType.advisor => 20
  | PieceType.soldier => 10

/-- `getPositionBonus` of ai.ts. -/
def getPositionBonus (piece : Piece) (x y : Nat) : Int :=
  if piece.type = PieceType.soldier ∧ piece.color = Color.black ∧ 4 < y then 20  -- Crossed river
  else if piece.type = PieceType.soldier ∧ piece.color = Color.red ∧ y < 5 then 20
  else if (piece.type = PieceType.cannon ∨ piece.type = PieceType.horse) ∧ 3 ≤ x ∧ x ≤ 5 then 5
  else 0

/-- `evaluateBoard` of ai.ts: positive favors RED. -/
def evaluateBoard (board : BoardState) : Int :=
  squaresRM.foldl (fun score s =>
    match rawCell board (s.1 : Int) (s.2 : Int) with
    | some p =>
      let val := pieceValue p.type + getPositionBonus p s.2 s.1
      score + (if p.color = Color.red then val else -val)
    | none => score) 0

/-- JS numbers as the search uses them: finite scores plus the two
infinities used as alpha/beta initializers. -/
inductive Score where
  | ninf
  | fin (v : Int)
  | inf
deriving DecidableEq, Repr

/-- JS `<` on the scores that occur in the search. -/
def Score.blt : Score → Score → Bool
  | Score.ninf, Score.ninf => false
  | Score.ninf, _ => true
  | Score.fin _, Score.ninf => false
  | Score.fin a, Score.fin b => decide (a < b)
  | Score.fin _, Score.inf => true
  | Score.inf, _ => false

/-- JS `<=` (no NaNs occur): `a <= b` iff `¬ (b < a)`. -/
def Score.ble (a b : Score) : Bool := ! Score.blt b a

/-- `Math.max` / `Math.min` on scores. -/
def Score.max (a b : Score) : Score := if Score.blt a b then b else a
def Score.min (a b : Score) : Score := if Score.blt b a then b else a

/-- Value of the piece captured by a move, the sort key of ai.ts's
capture-first move ordering (`targetA ? PIECE_VALUES[targetA.type] : 0`). -/
def captureValue (board : BoardState) (m : Move) : Int :=
  match getPieceAt board m.toPos with
  | some t => pieceValue t.type
  | none => 0

/-- Stable insertion of a move into a list sorted by descending capture
value; `sortMoves` below models the JS stable `Array.sort` with comparator
`valB - valA`. -/
def insertByCapture (board : BoardState) (m : Move) : List Move → List Move
  | [] => [m]
  | h :: t =>
    if captureValue board h < captureValue board m then m :: h :: t
    else h :: insertByCapture board m t

def sortMoves (board : BoardState) (l : List Move) : List Move :=
  l.foldr (insertByCapture board) []

/-- Accumulator of the alpha-beta loop in `minimax`: running best score and
move, the running bound (alpha when maximizing, beta when minimizing), and
whether the JS `break` has fired. -/
structure MMAcc where
  best : Score
  mv : Option Move
  bound : Score
  pruned : Bool

/-- One iteration of the maximizing loop of ai.ts's `minimax`.  `ev m a b2`
is the score of the recursive search after playing `m` with window (a, b2);
`st.bound` is the running alpha.  Once `pruned` is set the state freezes,
which is exactly what the JS `break` does. -/
def mmStepMax (ev : Move → Score → Score → Score) (beta : Score)
    (st : MMAcc) (m : Move) : MMAcc :=
  if st.pruned then st
  else
    let evaluation := ev m st.bound beta
    let upd := Score.blt st.best evaluation
    let newAlpha := Score.max st.bound evaluation
    { best := if upd then evaluation else st.best,
      mv := if upd then some m else st.mv,
      bound := newAlpha,
      pruned := Score.ble beta newAlpha }

/-- One iteration of the minimizing loop; `st.bound` is the running beta. -/
def mmStepMin (ev : Move → Score → Score → Score) (alpha : Score)
    (st : MMAcc) (m : Move) : MMAcc :=
  if st.pruned then st
  else
    let evaluation := ev m alpha st.bound
    let upd := Score.blt evaluation st.best
    let newBeta := Score.min st.bound evaluation
    { best := if upd then evaluation else st.best,
      mv := if upd then some m else st.mv,
      bound := newBeta,
      pruned := Score.ble newBeta alpha }

/-- `minimax` of ai.ts. -/
def minimax (board : BoardState) : Nat → Score → Score → Bool → Score × Option Move
  | 0, _, _, _ => (Score.fin (evaluateBoard board), none)
  | d + 1, alpha, beta, isMaximizing =>
    let turn := if isMaximizing then Color.red else Color.black
    let validMoves := getValidMoves board turn
    if validMoves = [] then
      -- Checkmate or Stalemate
      if isCheck board turn then
        ((if isMaximizing then Score.fin (-100000) else Score.fin 100000), none)
      else (Score.fin 0, none)
    else
      let sorted := sortMoves board validMoves
      let ev := fun (m : Move) (a b2 : Score) =>
        (minimax (simulateMove board m) d a b2 (!isMaximizing)).1
      if isMaximizing then
        let st := sorted.foldl (mmStepMax ev beta)
          { best := Score.ninf, mv := none, bound := alpha, pruned := false }
        (st.best, st.mv)
      else
        let st := sorted.foldl (mmStepMin ev alpha)
          { best := Score.inf, mv := none, bound := beta, pruned := false }
        (st.best, st.mv)

/-- `getBestMove` of ai.ts: always searches with BLACK as the root
minimizing side, alpha = -Infinity, beta = Infinity. -/
def getBestMove (board : BoardState) (depth : Nat) : Option Move :=
  (minimax board depth Score.ninf Score.inf false).2

-- ===== Concrete boards used by witnesses and counterexamples =====

/-- A sparse position: BLACK General at (3,0), RED General at (5,9). -/
def twoGeneralsBoard : BoardState := fenToBoard "3k5/9/9/9/9/9/9/9/9/5K3"

/-- A board holding only the RED General at (5,9): BLACK's General is absent. -/
def onlyRedGeneralBoard : BoardState := fenToBoard "9/9/9/9/9/9/9/9/9/5K3"

/-- A single RED Soldier at (4,4): row 4, i.e. across the river for RED. -/
def soldierCrossedBoard : BoardState := fenToBoard "9/9/9/9/4P4/9/9/9/9/9"

/-- A single RED Soldier at (4,6): row 6, i.e. not yet across the river. -/
def soldierHomeBoard : BoardState := fenToBoard "9/9/9/9/9/9/4P4/9/9/9"

-- ===== C5 =====

/-- C5: `boardToFen (createInitialBoard) RED` is exactly the canonical
initial-position FEN string. -/
theorem initial_board_fen :
    boardToFen createInitialBoard Color.red =
      "rnbakabnr/9/1c5c1/p1p1p1p1p/9/9/P1P1P1P1P/1C5C1/9/RNBAKABNR w - - 0 1" := by
  decide

-- ===== C6 =====

/-- C6: `getGameStatus board turn` returns the opposite color's win exactly
when `getValidMoves board turn` is empty, returns `playing` otherwise, and
never returns `draw`. -/
theorem game_status_spec (board : BoardState) (turn : Color) :
    (getGameStatus board turn =
        (if turn = Color.red then GameStatus.blackWin else GameStatus.redWin) ↔
      getValidMoves board turn = []) ∧
    (getGameStatus board turn = GameStatus.playing ↔ getValidMoves board turn ≠ []) ∧
    getGameStatus board turn ≠ GameStatus.draw := by
  unfold getGameStatus
  by_cases h : getValidMoves board turn = [] <;> cases turn <;> simp [h]

-- ===== C3 =====

/-- C3 counterexample: on the initial board the RED Cannon move from (1,7)
to (1,0) is *accepted* by `isValidMove` (the claim says it is rejected): it
is a capture of the BLACK Horse at (1,0) with exactly one screen, the BLACK
Cannon at (1,2). -/
theorem cannon_scenario_cex :
    isValidMove createInitialBoard ⟨⟨1, 7⟩, ⟨1, 0⟩⟩ Color.red = true ∧
    countPiecesBetween createInitialBoard ⟨1, 7⟩ ⟨1, 0⟩ = 1 ∧
    getPieceAt createInitialBoard ⟨1, 0⟩ = some ⟨PieceType.horse, Color.black⟩ := by
  decide

/-- C3 amended: on the initial board the RED Cannon move (1,7)→(1,0) is
legal (a capture with exactly one screen); the move (1,7)→(1,2) is illegal
(a capture attempt with zero screens between), and it becomes legal as a
screen-free non-capture once the BLACK Cannon occupying the destination
(1,2) is removed. -/
theorem cannon_scenario_amended :
    isValidMove createInitialBoard ⟨⟨1, 7⟩, ⟨1, 2⟩⟩ Color.red = false ∧
    countPiecesBetween createInitialBoard ⟨1, 7⟩ ⟨1, 2⟩ = 0 ∧
    isValidMove (setCell createInitialBoard ⟨1, 2⟩ none) ⟨⟨1, 7⟩, ⟨1, 2⟩⟩ Color.red = true := by
  decide

-- ===== C2 =====

/-- C2 counterexample: the claim places a RED Soldier at row ≤ 4 "before
crossing the river" and requires every accepted move there to be exactly one
step straight forward (Δcolumn = 0).  On the code, a RED Soldier at (4,4)
(row 4 ≤ 4) may move sideways to (5,4): `isValidMove` accepts a move with
Δcolumn = 1 ≠ 0 from the claim's "before crossing" region. -/
theorem soldier_region_cex :
    getPieceAt soldierCrossedBoard ⟨4, 4⟩ = some ⟨PieceType.soldier, Color.red⟩ ∧
    ((4 : Int) ≤ 4) ∧
    ((5 : Int) - 4 ≠ 0) ∧
    isValidMove soldierCrossedBoard ⟨⟨4, 4⟩, ⟨5, 4⟩⟩ Color.red = true := by
  decide

/-- C2 amended: the region labels are swapped with respect to the claim.
For a Soldier of color `c` standing at `m.fromPos` (with the basic
preconditions of `isValidMove` satisfied): *before* crossing the river —
RED at row ≥ 5, BLACK at row ≤ 4 — the move is accepted iff it is exactly
one step straight forward; *after* crossing — RED at row ≤ 4, BLACK at
row ≥ 5 — it is accepted iff it is a one-step orthogonal move that is not
backward. -/
theorem soldier_rule_amended (b : BoardState) (m : Move) (c : Color) (piece : Piece)
    (hp : getPieceAt b m.fromPos = some piece)
    (hty : piece.type = PieceType.soldier)
    (hcol : piece.color = c)
    (hto : isValidPos m.toPos = true)
    (hne : ¬ (m.fromPos.x = m.toPos.x ∧ m.fromPos.y = m.toPos.y))
    (hff : (match getPieceAt b m.toPos with
            | some t => decide (t.color = c)
            | none => false) = false) :
    (¬ (if c = Color.red then m.fromPos.y ≤ 4 else 5 ≤ m.fromPos.y) →
      (isValidMove b m c = true ↔
        (m.toPos.x - m.fromPos.x = 0 ∧
         m.toPos.y - m.fromPos.y = (if c = Color.red then (-1 : Int) else 1)))) ∧
    ((if c = Color.red then m.fromPos.y ≤ 4 else 5 ≤ m.fromPos.y) →
      (isValidMove b m c = true ↔
        ((m.toPos.x - m.fromPos.x).natAbs + (m.toPos.y - m.fromPos.y).natAbs = 1 ∧
         ¬ (if c = Color.red then 0 < m.toPos.y - m.fromPos.y
            else m.toPos.y - m.fromPos.y < 0)))) := by
  obtain ⟨pt, pc⟩ := piece
  simp only at hty hcol
  subst hty
  subst hcol
  simp only [isValidMove, hp, hff]
  simp only [hto, hne, Bool.false_eq_true, if_false, ite_false, not_true_eq_false,
    not_false_eq_true, ite_true, if_true]
  cases pc
  all_goals constructor
  all_goals intro hcr
  all_goals simp only [reduceCtorEq, eq_self_iff_true, if_true, if_false, ite_true,
    ite_false] at hcr ⊢
  all_goals simp only [ne_eq, not_true_eq_false, true_and, false_and, if_false, ite_false,
    Bool.false_eq_true, not_false_eq_true, if_true, ite_true]
  · -- red, not crossed
    rw [decide_eq_false hcr]
    by_cases hdy : (0 : Int) < m.toPos.y - m.fromPos.y
    · simp [hdy]; omega
    · simp [hdy, decide_eq_true_eq]
  · -- red, crossed
    rw [decide_eq_true hcr]
    by_cases hdy : (0 : Int) < m.toPos.y - m.fromPos.y
    · simp [hdy]
    · simp [hdy, decide_eq_true_eq]
  · -- black, not crossed
    rw [decide_eq_false hcr]
    by_cases hdy : m.toPos.y - m.fromPos.y < 0
    · simp [hdy]; omega
    · simp [hdy, decide_eq_true_eq]
  · -- black, crossed
    rw [decide_eq_true hcr]
    by_cases hdy : m.toPos.y - m.fromPos.y < 0
    · simp [hdy]
    · simp [hdy, decide_eq_true_eq]

/-- C2 amended, witness: the RED Soldier at (4,6) has not crossed the river
(6 ≥ 5) and its one-step-forward move to (4,5) is accepted. -/
theorem soldier_rule_amended_witness :
    isValidMove soldierHomeBoard ⟨⟨4, 6⟩, ⟨4, 5⟩⟩ Color.red = true :=
  ((soldier_rule_amended soldierHomeBoard ⟨⟨4, 6⟩, ⟨4, 5⟩⟩ Color.red
      ⟨PieceType.soldier, Color.red⟩ (by decide) rfl rfl (by decide) (by decide)
      (by decide)).1 (by decide)).mpr (by decide)

-- ===== C10 =====

/-- C10: positions outside the 9x10 grid are harmless: `getPieceAt` returns
`none` there, and `isValidMove` rejects every move whose source or
destination is off the grid. -/
theorem out_of_bounds_safe (b : BoardState) (p : Pos) (m : Move) (c : Color) :
    (isValidPos p = false → getPieceAt b p = none) ∧
    ((isValidPos m.fromPos = false ∨ isValidPos m.toPos = false) →
      isValidMove b m c = false) := by
  constructor
  · intro hp
    simp [getPieceAt, hp]
  · intro hm
    rcases hm with hf | ht
    · have hnone : getPieceAt b m.fromPos = none := by simp [getPieceAt, hf]
      simp only [isValidMove, hnone]
    · simp only [isValidMove]
      cases hq : getPieceAt b m.fromPos with
      | none => rfl
      | some piece =>
        by_cases hc : piece.color = c
        · simp [ht, hc]
        · simp [hc]

/-- C10 witness: a concrete off-grid position and move. -/
theorem out_of_bounds_safe_witness :
    getPieceAt twoGeneralsBoard ⟨-1, 0⟩ = none ∧
    isValidMove twoGeneralsBoard ⟨⟨-1, 0⟩, ⟨0, 0⟩⟩ Color.red = false :=
  ⟨(out_of_bounds_safe twoGeneralsBoard ⟨-1, 0⟩ ⟨⟨-1, 0⟩, ⟨0, 0⟩⟩ Color.red).1 (by decide),
   (out_of_bounds_safe twoGeneralsBoard ⟨-1, 0⟩ ⟨⟨-1, 0⟩, ⟨0, 0⟩⟩ Color.red).2
     (Or.inl (by decide))⟩

-- ===== C1 =====

/-- C1: legality closure.  Every move produced by `getValidMoves board turn`
is geometrically legal for `turn`, and after simulating it the mover is not
in check and the Generals are not facing. -/
theorem legality_closure (b : BoardState) (turn : Color) (m : Move)
    (h : m ∈ getValidMoves b turn) :
    isValidMove b m turn = true ∧
    isCheck (simulateMove b m) turn = false ∧
    areGeneralsFacing (simulateMove b m) = false := by
  unfold getValidMoves at h
  rw [List.mem_flatMap] at h
  obtain ⟨s, -, h⟩ := h
  split at h
  · split at h
    · rw [List.mem_filterMap] at h
      obtain ⟨t, -, ht⟩ := h
      simp only at ht
      split at ht
      · split at ht
        · rename_i hvalid hcond
          cases ht
          simp only [Bool.not_eq_true] at hcond
          exact ⟨hvalid, hcond.1, hcond.2⟩
        · exact absurd ht (by simp)
      · exact absurd ht (by simp)
    · exact absurd h (by simp)
  · exact absurd h (by simp)

/-- C1 witness: on the two-Generals board, the RED General step
(5,9) → (5,8) is produced by `getValidMoves` and enjoys all three
closure properties. -/
theorem legality_closure_witness :
    isValidMove twoGeneralsBoard ⟨⟨5, 9⟩, ⟨5, 8⟩⟩ Color.red = true ∧
    isCheck (simulateMove twoGeneralsBoard ⟨⟨5, 9⟩, ⟨5, 8⟩⟩) Color.red = false ∧
    areGeneralsFacing (simulateMove twoGeneralsBoard ⟨⟨5, 9⟩, ⟨5, 8⟩⟩) = false :=
  legality_closure twoGeneralsBoard Color.red ⟨⟨5, 9⟩, ⟨5, 8⟩⟩ (by decide)

-- ===== C7 =====

/-- Membership in the row-major square enumeration. -/
theorem mem_squaresRM {s : Nat × Nat} : s ∈ squaresRM ↔ s.1 < 10 ∧ s.2 < 9 := by
  unfold squaresRM
  rw [List.mem_flatMap]
  constructor
  · rintro ⟨y, hy, hmem⟩
    rw [List.mem_map] at hmem
    obtain ⟨x, hx, rfl⟩ := hmem
    exact ⟨List.mem_range.mp hy, List.mem_range.mp hx⟩
  · rintro ⟨h1, h2⟩
    exact ⟨s.1, List.mem_range.mpr h1, List.mem_map.mpr ⟨s.2, List.mem_range.mpr h2, rfl⟩⟩

/-- `getPieceAt` agrees with raw grid access on in-grid coordinates. -/
theorem getPieceAt_coe (b : BoardState) (x y : Nat) (hx : x < 9) (hy : y < 10) :
    getPieceAt b ⟨(x : Int), (y : Int)⟩ = rawCell b (y : Int) (x : Int) := by
  have : isValidPos ⟨(x : Int), (y : Int)⟩ = true := by
    simp only [isValidPos, decide_eq_true_eq]
    omega
  simp [getPieceAt, this]

/-- C7: a board with no General of color `c` anywhere on the grid is
reported as in check for `c` (`isCheck` is total and defensive). -/
theorem missing_general_in_check (b : BoardState) (c : Color)
    (h : ∀ (x : Fin 9) (y : Fin 10),
      (match getPieceAt b ⟨((x : Nat) : Int), ((y : Nat) : Int)⟩ with
       | some p => decide (p.type = PieceType.general ∧ p.color = c)
       | none => false) = false) :
    isCheck b c = true := by
  have hfind : findGeneral b c = none := by
    unfold findGeneral
    rw [Option.map_eq_none', List.find?_eq_none]
    intro s hs
    obtain ⟨h1, h2⟩ := mem_squaresRM.mp hs
    have := h ⟨s.2, h2⟩ ⟨s.1, h1⟩
    rw [getPieceAt_coe b s.2 s.1 h2 h1] at this
    simp only [this]
    exact Bool.false_ne_true
  unfold isCheck
  rw [hfind]

/-- C7 witness: BLACK's General is absent from `onlyRedGeneralBoard`, and
`isCheck` reports BLACK as in check. -/
theorem missing_general_in_check_witness :
    isCheck onlyRedGeneralBoard Color.black = true :=
  missing_general_in_check onlyRedGeneralBoard Color.black (by decide)

-- ===== C8 =====

theorem rawCell_nonneg (b : BoardState) (y x : Int) (hy : 0 ≤ y) (hx : 0 ≤ x) :
    rawCell b y x = (b[y.toNat]?.bind fun row => row[x.toNat]?).join := by
  unfold rawCell
  rw [if_neg (by omega)]

theorem setCell_of_none (b : BoardState) (p : Pos) (v : Option Piece)
    (hy : 0 ≤ p.y) (hx : 0 ≤ p.x) (h : b[p.y.toNat]? = none) :
    setCell b p v = b := by
  unfold setCell
  rw [if_neg (by omega), h]

theorem setCell_of_some (b : BoardState) (p : Pos) (v : Option Piece) (row : List (Option Piece))
    (hy : 0 ≤ p.y) (hx : 0 ≤ p.x) (h : b[p.y.toNat]? = some row) :
    setCell b p v = b.set p.y.toNat (row.set p.x.toNat v) := by
  unfold setCell
  rw [if_neg (by omega), h]

theorem boardWF_setCell (b : BoardState) (p : Pos) (v : Option Piece)
    (hwf : boardWF b) : boardWF (setCell b p v) := by
  obtain ⟨hlen, hrows⟩ := hwf
  by_cases hneg : p.y < 0 ∨ p.x < 0
  · unfold setCell
    rw [if_pos hneg]
    exact ⟨hlen, hrows⟩
  · push_neg at hneg
    cases hg : b[p.y.toNat]? with
    | none => rw [setCell_of_none b p v hneg.1 hneg.2 hg]; exact ⟨hlen, hrows⟩
    | some row =>
      rw [setCell_of_some b p v row hneg.1 hneg.2 hg]
      refine ⟨by rw [List.length_set]; exact hlen, ?_⟩
      intro r hr
      rcases List.mem_or_eq_of_mem_set hr with hmem | rfl
      · exact hrows _ hmem
      · rw [List.length_set]
        obtain ⟨hlt, heq⟩ := List.getElem?_eq_some_iff.mp hg
        exact hrows row (heq ▸ List.getElem_mem hlt)

theorem rawCell_setCell_self (b : BoardState) (p : Pos) (v : Option Piece)
    (hwf : boardWF b) (hp : isValidPos p = true) :
    rawCell (setCell b p v) p.y p.x = v := by
  obtain ⟨hlen, hrows⟩ := hwf
  simp only [isValidPos, decide_eq_true_eq] at hp
  obtain ⟨hx0, hx8, hy0, hy9⟩ := hp
  have hyn : p.y.toNat < b.length := by omega
  have hg : b[p.y.toNat]? = some b[p.y.toNat] := List.getElem?_eq_getElem hyn
  have hrowlen : b[p.y.toNat].length = 9 := hrows _ (List.getElem_mem hyn)
  rw [setCell_of_some b p v _ hy0 hx0 hg, rawCell_nonneg _ _ _ hy0 hx0]
  rw [List.getElem?_set, if_pos rfl, if_pos hyn, Option.some_bind]
  rw [List.getElem?_set, if_pos rfl, if_pos (by omega)]
  rfl

theorem rawCell_setCell_other (b : BoardState) (p q : Pos) (v : Option Piece)
    (hp : isValidPos p = true) (hq : isValidPos q = true) (hne : p ≠ q) :
    rawCell (setCell b p v) q.y q.x = rawCell b q.y q.x := by
  simp only [isValidPos, decide_eq_true_eq] at hp hq
  obtain ⟨hpx0, hpx8, hpy0, hpy9⟩ := hp
  obtain ⟨hqx0, hqx8, hqy0, hqy9⟩ := hq
  cases hg : b[p.y.toNat]? with
  | none => rw [setCell_of_none b p v hpy0 hpx0 hg]
  | some row =>
    rw [setCell_of_some b p v row hpy0 hpx0 hg,
      rawCell_nonneg _ _ _ hqy0 hqx0, rawCell_nonneg _ _ _ hqy0 hqx0]
    by_cases hyy : p.y.toNat = q.y.toNat
    · have hyeq : p.y = q.y := by omega
      have hxx : p.x ≠ q.x := by
        intro hc
        exact hne (by cases p; cases q; simp_all)
      rw [List.getElem?_set, if_pos hyy, ← hyy, hg]
      obtain ⟨hlt, -⟩ := List.getElem?_eq_some_iff.mp hg
      rw [if_pos hlt, Option.some_bind, Option.some_bind]
      rw [List.getElem?_set, if_neg (by omega)]
    · rw [List.getElem?_set, if_neg hyy]

/-- C8 counterexample: the claim quantifies over *every* move, including the
degenerate `from = to` case.  There, the code first copies the piece onto
its own square and then empties that square: with the RED General at (5,9),
applying the move (5,9) → (5,9) leaves the `to` cell empty instead of
holding the piece that was at `from`. -/
theorem apply_move_cex :
    getPieceAt onlyRedGeneralBoard ⟨5, 9⟩ = some ⟨PieceType.general, Color.red⟩ ∧
    getPieceAt (simulateMove onlyRedGeneralBoard ⟨⟨5, 9⟩, ⟨5, 9⟩⟩) ⟨5, 9⟩ = none := by
  decide

/-- C8 amended: for every well-formed 10x9 board and every move whose
source and destination are distinct on-grid squares, `simulateMove` puts
the source piece on the destination, empties the source, and leaves every
other cell unchanged.  (Immutability of the input is inherent in this pure
embedding: `simulateMove` builds a new list and cannot alter `b`.) -/
theorem apply_move_spec (b : BoardState) (m : Move)
    (hwf : boardWF b) (hf : isValidPos m.fromPos = true) (ht : isValidPos m.toPos = true)
    (hne : m.fromPos ≠ m.toPos) :
    getPieceAt (simulateMove b m) m.toPos = getPieceAt b m.fromPos ∧
    getPieceAt (simulateMove b m) m.fromPos = none ∧
    ∀ p : Pos, p ≠ m.fromPos → p ≠ m.toPos →
      getPieceAt (simulateMove b m) p = getPieceAt b p := by
  have hwf1 : boardWF (setCell b m.toPos (rawCell b m.fromPos.y m.fromPos.x)) :=
    boardWF_setCell b m.toPos _ hwf
  refine ⟨?_, ?_, ?_⟩
  · rw [getPieceAt, if_pos ht, getPieceAt, if_pos hf]
    unfold simulateMove
    rw [rawCell_setCell_other _ m.fromPos m.toPos none hf ht hne,
      rawCell_setCell_self b m.toPos _ hwf ht]
  · rw [getPieceAt, if_pos hf]
    unfold simulateMove
    rw [rawCell_setCell_self _ m.fromPos none hwf1 hf]
  · intro p hpf hpt
    unfold getPieceAt
    by_cases hv : isValidPos p = true
    · rw [if_pos hv, if_pos hv]
      unfold simulateMove
      rw [rawCell_setCell_other _ m.fromPos p none hf hv (fun hc => hpf hc.symm),
        rawCell_setCell_other _ m.toPos p _ ht hv (fun hc => hpt hc.symm)]
    · rw [if_neg hv, if_neg hv]

/-- C8 amended, witness: on the initial board, the RED Soldier push
(0,6) → (0,5) relocates the piece, empties the source, and (by the third
conjunct) fixes all other cells. -/
theorem apply_move_spec_witness :
    getPieceAt (simulateMove createInitialBoard ⟨⟨0, 6⟩, ⟨0, 5⟩⟩) ⟨0, 5⟩ =
      getPieceAt createInitialBoard ⟨0, 6⟩ ∧
    getPieceAt (simulateMove createInitialBoard ⟨⟨0, 6⟩, ⟨0, 5⟩⟩) ⟨0, 6⟩ = none ∧
    ∀ p : Pos, p ≠ ⟨0, 6⟩ → p ≠ ⟨0, 5⟩ →
      getPieceAt (simulateMove createInitialBoard ⟨⟨0, 6⟩, ⟨0, 5⟩⟩) p =
        getPieceAt createInitialBoard p :=
  apply_move_spec createInitialBoard ⟨⟨0, 6⟩, ⟨0, 5⟩⟩ (by decide) (by decide) (by decide)
    (by decide)

-- ===== C4 =====

/-- Writing a list of cells into a row starting at index `x`: occupied cells
overwrite, empty cells skip.  This is the specification of what one decoded
FEN row segment does to the blank row it is applied to. -/
def applyCells : List (Option Piece) → Nat → List (Option Piece) → List (Option Piece)
  | row, _, [] => row
  | row, x, none :: rest => applyCells row (x + 1) rest
  | row, x, some p :: rest => applyCells (row.set x (some p)) (x + 1) rest

def cellOverride (c fallback : Option (Option Piece)) : Option (Option Piece) :=
  match c with
  | some (some p) => some (some p)
  | _ => fallback

theorem charPiece_pieceFenChar (p : Piece) : charPiece (pieceFenChar p) = some p := by
  obtain ⟨t, c⟩ := p
  cases t <;> cases c <;> decide

theorem pieceFenChar_not_digit (p : Piece) : (pieceFenChar p).isDigit = false := by
  obtain ⟨t, c⟩ := p
  cases t <;> cases c <;> decide

theorem pieceFenChar_ne (p : Piece) : pieceFenChar p ≠ '/' ∧ pieceFenChar p ≠ ' ' := by
  obtain ⟨t, c⟩ := p
  cases t <;> cases c <;> decide

theorem digitChar_ne (n : Nat) (h : n ≤ 9) : digitChar n ≠ '/' ∧ digitChar n ≠ ' ' := by
  interval_cases n <;> decide

theorem digitChar_isDigit (n : Nat) (h1 : 1 ≤ n) (h9 : n ≤ 9) :
    (digitChar n).isDigit = true := by
  interval_cases n <;> decide

theorem digitChar_toNat (n : Nat) (h9 : n ≤ 9) : (digitChar n).toNat - 48 = n := by
  interval_cases n <;> decide

/-- Every character an encoded row contains is a piece letter or a digit;
in particular it is neither '/' nor ' '. -/
theorem encodeRowGo_chars : ∀ (cells : List (Option Piece)) (cnt : Nat),
    cnt + cells.length ≤ 9 →
    ∀ ch ∈ encodeRowGo cells cnt, ch ≠ '/' ∧ ch ≠ ' '
  | [], cnt, h, ch, hch => by
    unfold encodeRowGo at hch
    split at hch
    · rw [List.mem_singleton] at hch
      subst hch
      exact digitChar_ne cnt (by simpa using h)
    · exact absurd hch (List.not_mem_nil ch)
  | none :: rest, cnt, h, ch, hch => by
    unfold encodeRowGo at hch
    exact encodeRowGo_chars rest (cnt + 1) (by simp at h ⊢; omega) ch hch
  | some p :: rest, cnt, h, ch, hch => by
    unfold encodeRowGo at hch
    rw [List.mem_append] at hch
    rcases hch with hch | hch
    · split at hch
      · rw [List.mem_singleton] at hch
        subst hch
        exact digitChar_ne cnt (by simp at h; omega)
      · exact absurd hch (List.not_mem_nil ch)
    · rw [List.mem_cons] at hch
      rcases hch with rfl | hch
      · exact pieceFenChar_ne p
      · exact encodeRowGo_chars rest 0 (by simp at h ⊢; omega) ch hch

theorem splitOnChar_ne_nil (sep : Char) : ∀ l : List Char, splitOnChar sep l ≠ []
  | [] => by simp [splitOnChar]
  | c :: rest => by
    unfold splitOnChar
    cases h : splitOnChar sep rest with
    | nil => exact absurd h (splitOnChar_ne_nil sep rest)
    | cons hd tl =>
      by_cases hc : c = sep <;> simp [hc]

theorem splitOnChar_cons (sep c : Char) (rest : List Char) :
    splitOnChar sep (c :: rest) =
      match splitOnChar sep rest with
      | [] => if c = sep then [[], []] else [[c]]
      | h :: t => if c = sep then [] :: h :: t else (c :: h) :: t := rfl

theorem splitOnChar_append (sep : Char) :
    ∀ (l1 l2 : List Char), sep ∉ l1 →
      splitOnChar sep (l1 ++ sep :: l2) = l1 :: splitOnChar sep l2
  | [], l2, _ => by
    show splitOnChar sep (sep :: l2) = [] :: splitOnChar sep l2
    rw [splitOnChar_cons]
    cases h : splitOnChar sep l2 with
    | nil => exact absurd h (splitOnChar_ne_nil sep l2)
    | cons hd tl => simp
  | c :: rest, l2, hmem => by
    have hc : c ≠ sep := fun hc => hmem (hc ▸ List.mem_cons_self c rest)
    have hrest : sep ∉ rest := fun hr => hmem (List.mem_cons_of_mem c hr)
    show splitOnChar sep (c :: (rest ++ sep :: l2)) = (c :: rest) :: splitOnChar sep l2
    rw [splitOnChar_cons, splitOnChar_append sep rest l2 hrest]
    simp [hc]

theorem splitOnChar_of_not_mem (sep : Char) :
    ∀ l : List Char, sep ∉ l → splitOnChar sep l = [l]
  | [], _ => rfl
  | c :: rest, hmem => by
    have hc : c ≠ sep := fun hc => hmem (hc ▸ List.mem_cons_self c rest)
    have hrest : sep ∉ rest := fun hr => hmem (List.mem_cons_of_mem c hr)
    rw [splitOnChar_cons, splitOnChar_of_not_mem sep rest hrest]
    simp [hc]

theorem mem_joinRows : ∀ (rows : List (List Char)) (ch : Char),
    ch ∈ joinRows rows → ch = '/' ∨ ∃ r ∈ rows, ch ∈ r
  | [], ch, h => absurd h (List.not_mem_nil ch)
  | [r], ch, h => Or.inr ⟨r, List.mem_singleton_self r, h⟩
  | r :: r2 :: rest, ch, h => by
    rw [show joinRows (r :: r2 :: rest) = r ++ '/' :: joinRows (r2 :: rest) from rfl] at h
    rw [List.mem_append, List.mem_cons] at h
    rcases h with h | h | h
    · exact Or.inr ⟨r, List.mem_cons_self r _, h⟩
    · exact Or.inl h
    · rcases mem_joinRows (r2 :: rest) ch h with h | ⟨r3, hr3, hch⟩
      · exact Or.inl h
      · exact Or.inr ⟨r3, List.mem_cons_of_mem r hr3, hch⟩

theorem splitOnChar_joinRows : ∀ rows : List (List Char), rows ≠ [] →
    (∀ r ∈ rows, '/' ∉ r) → splitOnChar '/' (joinRows rows) = rows
  | [], h, _ => absurd rfl h
  | [r], _, hmem => by
    show splitOnChar '/' r = [r]
    exact splitOnChar_of_not_mem '/' r (hmem r (List.mem_singleton_self r))
  | r :: r2 :: rest, _, hmem => by
    show splitOnChar '/' (r ++ '/' :: joinRows (r2 :: rest)) = r :: r2 :: rest
    rw [splitOnChar_append '/' r _ (hmem r (List.mem_cons_self r _))]
    rw [splitOnChar_joinRows (r2 :: rest) (by simp)
      (fun r3 hr3 => hmem r3 (List.mem_cons_of_mem r hr3))]

theorem applyCells_getElem : ∀ (cells row : List (Option Piece)) (x j : Nat),
    row.length = 9 → x + cells.length ≤ 9 → j < 9 →
    (applyCells row x cells)[j]? =
      if x ≤ j ∧ j < x + cells.length then cellOverride cells[j - x]? row[j]? else row[j]?
  | [], row, x, j, hlen, hb, hj => by
    simp only [applyCells, List.length_nil, Nat.add_zero]
    rw [if_neg (by omega)]
  | none :: rest, row, x, j, hlen, hb, hj => by
    simp only [applyCells, List.length_cons]
    rw [applyCells_getElem rest row (x + 1) j hlen (by simp at hb; omega) hj]
    by_cases hxj : x ≤ j
    · obtain ⟨k, rfl⟩ : ∃ k, j = x + k := ⟨j - x, by omega⟩
      cases k with
      | zero =>
        rw [if_neg (by omega), if_pos (by omega)]
        simp [cellOverride]
      | succ k2 =>
        by_cases hin : x + (k2 + 1) < x + 1 + rest.length
        · rw [if_pos (by omega), if_pos (by omega)]
          have h1 : x + (k2 + 1) - x = k2 + 1 := by omega
          have h2 : x + (k2 + 1) - (x + 1) = k2 := by omega
          rw [h1, h2, List.getElem?_cons_succ]
        · rw [if_neg (by omega), if_neg (by omega)]
    · rw [if_neg (by omega), if_neg (by omega)]
  | some p :: rest, row, x, j, hlen, hb, hj => by
    simp only [applyCells, List.length_cons]
    rw [applyCells_getElem rest (row.set x (some p)) (x + 1) j (by rw [List.length_set]; exact hlen)
      (by simp at hb; omega) hj]
    by_cases hxj : x ≤ j
    · obtain ⟨k, rfl⟩ : ∃ k, j = x + k := ⟨j - x, by omega⟩
      cases k with
      | zero =>
        rw [if_neg (by omega), if_pos (by omega)]
        rw [List.getElem?_set, if_pos (by omega), if_pos (by omega)]
        simp [cellOverride]
      | succ k2 =>
        by_cases hin : x + (k2 + 1) < x + 1 + rest.length
        · rw [if_pos (by omega), if_pos (by omega)]
          have h1 : x + (k2 + 1) - x = k2 + 1 := by omega
          have h2 : x + (k2 + 1) - (x + 1) = k2 := by omega
          rw [h1, h2, List.getElem?_cons_succ, List.getElem?_set, if_neg (by omega)]
        · rw [if_neg (by omega), if_neg (by omega), List.getElem?_set, if_neg (by omega)]
    · rw [if_neg (by omega), if_neg (by omega), List.getElem?_set, if_neg (by omega)]

/-- Decoding an encoded row segment, started at cursor `x` with `cnt` empty
cells already pending in the encoder, writes exactly the encoded cells at
positions `x + cnt`, `x + cnt + 1`, …. -/
theorem decode_encode : ∀ (cells : List (Option Piece)) (cnt x : Nat)
    (row : List (Option Piece)), x + cnt + cells.length ≤ 9 →
    decodeRowGo (encodeRowGo cells cnt) x row = applyCells row (x + cnt) cells
  | [], cnt, x, row, hb => by
    unfold encodeRowGo
    by_cases hc : 0 < cnt
    · rw [if_pos hc]
      unfold decodeRowGo
      rw [if_pos (digitChar_isDigit cnt hc (by simp at hb; omega))]
      rw [digitChar_toNat cnt (by simp at hb; omega)]
      rfl
    · rw [if_neg hc]
      have : cnt = 0 := by omega
      subst this
      rfl
  | none :: rest, cnt, x, row, hb => by
    unfold encodeRowGo
    rw [decode_encode rest (cnt + 1) x row (by simp at hb ⊢; omega)]
    show applyCells row (x + (cnt + 1)) rest = applyCells row (x + cnt) (none :: rest)
    rw [show x + (cnt + 1) = x + cnt + 1 from by omega]
    rfl
  | some p :: rest, cnt, x, row, hb => by
    unfold encodeRowGo
    have hxcnt : x + cnt < 9 := by simp at hb; omega
    by_cases hc : 0 < cnt
    · rw [if_pos hc]
      show decodeRowGo (digitChar cnt :: pieceFenChar p :: encodeRowGo rest 0) x row = _
      unfold decodeRowGo
      rw [if_pos (digitChar_isDigit cnt hc (by simp at hb; omega))]
      rw [digitChar_toNat cnt (by simp at hb; omega)]
      unfold decodeRowGo
      rw [if_neg (by rw [pieceFenChar_not_digit]; exact Bool.false_ne_true)]
      rw [charPiece_pieceFenChar p]
      show (if x + cnt < 9 then
              decodeRowGo (encodeRowGo rest 0) (x + cnt + 1) (row.set (x + cnt) (some p))
            else decodeRowGo (encodeRowGo rest 0) (x + cnt) row) = _
      rw [if_pos hxcnt]
      rw [decode_encode rest 0 (x + cnt + 1) (row.set (x + cnt) (some p))
        (by simp at hb ⊢; omega)]
      show applyCells _ (x + cnt + 1 + 0) rest = applyCells row (x + cnt) (some p :: rest)
      rfl
    · rw [if_neg hc]
      have : cnt = 0 := by omega
      subst this
      show decodeRowGo (pieceFenChar p :: encodeRowGo rest 0) x row = _
      unfold decodeRowGo
      rw [if_neg (by rw [pieceFenChar_not_digit]; exact Bool.false_ne_true)]
      rw [charPiece_pieceFenChar p]
      show (if x < 9 then
              decodeRowGo (encodeRowGo rest 0) (x + 1) (row.set x (some p))
            else decodeRowGo (encodeRowGo rest 0) x row) = _
      rw [if_pos (show x < 9 by omega)]
      rw [decode_encode rest 0 (x + 1) (row.set x (some p)) (by simp at hb ⊢; omega)]
      show applyCells _ (x + 1 + 0) rest = applyCells row (x + 0) (some p :: rest)
      rfl

theorem cellsRow_length (b : BoardState) (y : Nat) : (cellsRow b y).length = 9 := by
  unfold cellsRow
  rw [List.length_map, List.length_range]

theorem fen_round_trip_nat (b : BoardState) (turn : Color) (x y : Nat)
    (hx : x < 9) (hy : y < 10) :
    rawCell (fenToBoard (boardToFen b turn)) (y : Int) (x : Int) =
      rawCell b (y : Int) (x : Int) := by
  have hnol : ∀ r ∈ (List.range 10).map (rowFen b), ('/' ∉ r) ∧ (' ' ∉ r) := by
    intro r hr
    rw [List.mem_map] at hr
    obtain ⟨y2, -, rfl⟩ := hr
    constructor <;> intro hch
    · exact
        (encodeRowGo_chars (cellsRow b y2) 0 (by simp [cellsRow_length]) _ hch).1 rfl
    · exact
        (encodeRowGo_chars (cellsRow b y2) 0 (by simp [cellsRow_length]) _ hch).2 rfl
  have hspace : ' ' ∉ joinRows ((List.range 10).map (rowFen b)) := by
    intro h
    rcases mem_joinRows _ _ h with h | ⟨r, hr, hch⟩
    · exact absurd h (by decide)
    · exact (hnol r hr).2 hch
  have hsplit1 : (splitOnChar ' ' (boardToFen b turn).data).headD [] =
      joinRows ((List.range 10).map (rowFen b)) := by
    show (splitOnChar ' '
      (joinRows ((List.range 10).map (rowFen b)) ++
        ' ' :: (if turn = Color.red then 'w' else 'b') :: " - - 0 1".data)).headD [] = _
    rw [splitOnChar_append ' ' _ _ hspace]
    rfl
  have hsplit2 : splitOnChar '/' (joinRows ((List.range 10).map (rowFen b))) =
      (List.range 10).map (rowFen b) :=
    splitOnChar_joinRows _ (by simp) (fun r hr => (hnol r hr).1)
  have hboard : fenToBoard (boardToFen b turn) =
      (List.range 10).map (fun y2 =>
        decodeRowGo (((List.range 10).map (rowFen b)).getD y2 []) 0
          (List.replicate 9 none)) := by
    simp only [fenToBoard]
    rw [hsplit1, hsplit2]
  rw [rawCell_nonneg _ _ _ (Int.natCast_nonneg y) (Int.natCast_nonneg x), hboard]
  simp only [Int.toNat_natCast]
  rw [List.getElem?_map, List.getElem?_range hy, Option.map_some', Option.some_bind]
  rw [List.getD_eq_getElem?_getD, List.getElem?_map, List.getElem?_range hy,
    Option.map_some', Option.getD_some]
  simp only [rowFen]
  rw [decode_encode (cellsRow b y) 0 0 _ (by simp [cellsRow_length])]
  simp only [Nat.add_zero]
  rw [applyCells_getElem (cellsRow b y) _ 0 x (by simp) (by rw [cellsRow_length]) hx]
  rw [if_pos ⟨Nat.zero_le x, by rw [Nat.zero_add, cellsRow_length]; exact hx⟩]
  rw [Nat.sub_zero]
  rw [show (cellsRow b y)[x]? = some (rawCell b (y : Int) (x : Int)) from by
        simp only [cellsRow]
        rw [List.getElem?_map, List.getElem?_range hx, Option.map_some']]
  rw [List.getElem?_replicate, if_pos hx]
  cases hcell : rawCell b (y : Int) (x : Int) with
  | none => rfl
  | some q => rfl

/-- C4: FEN round trip.  `fenToBoard (boardToFen b turn)` agrees with `b` at
every position: on-grid cells carry the same piece type and color (instance
tags do not exist in this embedding, matching the claim's "ignoring the id
tag"), and off-grid lookups return `none` on both boards. -/
theorem fen_round_trip (b : BoardState) (turn : Color) (p : Pos) :
    getPieceAt (fenToBoard (boardToFen b turn)) p = getPieceAt b p := by
  by_cases hv : isValidPos p = true
  · have hb := hv
    simp only [isValidPos, decide_eq_true_eq] at hb
    obtain ⟨hx0, hx8, hy0, hy9⟩ := hb
    have hpx : p.x = ((p.x.toNat : Nat) : Int) := by omega
    have hpy : p.y = ((p.y.toNat : Nat) : Int) := by omega
    rw [getPieceAt, getPieceAt, if_pos hv, if_pos hv, hpx, hpy]
    exact fen_round_trip_nat b turn p.x.toNat p.y.toNat (by omega) (by omega)
  · simp [getPieceAt, hv]

-- ===== C9 =====

theorem insertByCapture_ne_nil (b : BoardState) (m : Move) :
    ∀ l : List Move, insertByCapture b m l ≠ []
  | [] => by simp [insertByCapture]
  | h :: t => by
    unfold insertByCapture
    split <;> simp

theorem sortMoves_ne_nil (b : BoardState) (l : List Move) (h : l ≠ []) :
    sortMoves b l ≠ [] := by
  cases l with
  | nil => exact absurd rfl h
  | cons m rest => exact insertByCapture_ne_nil b m _

theorem mmStepMax_best_fin (ev : Move → Score → Score → Score) (beta : Score)
    (st : MMAcc) (m : Move)
    (hev : ∀ (m2 : Move) (a b2 : Score), ∃ v, ev m2 a b2 = Score.fin v)
    (hst : ∃ v, st.best = Score.fin v) :
    ∃ v, (mmStepMax ev beta st m).best = Score.fin v := by
  unfold mmStepMax
  split
  · exact hst
  · obtain ⟨v, hv⟩ := hev m st.bound beta
    simp only [hv]
    by_cases hupd : Score.blt st.best (Score.fin v) = true
    · exact ⟨v, by simp [hupd]⟩
    · obtain ⟨w, hw⟩ := hst
      rw [hw] at hupd
      exact ⟨w, by simp [hupd, hw]⟩

theorem mmStepMin_best_fin (ev : Move → Score → Score → Score) (alpha : Score)
    (st : MMAcc) (m : Move)
    (hev : ∀ (m2 : Move) (a b2 : Score), ∃ v, ev m2 a b2 = Score.fin v)
    (hst : ∃ v, st.best = Score.fin v) :
    ∃ v, (mmStepMin ev alpha st m).best = Score.fin v := by
  unfold mmStepMin
  split
  · exact hst
  · obtain ⟨v, hv⟩ := hev m alpha st.bound
    simp only [hv]
    by_cases hupd : Score.blt (Score.fin v) st.best = true
    · exact ⟨v, by simp [hupd]⟩
    · obtain ⟨w, hw⟩ := hst
      rw [hw] at hupd
      exact ⟨w, by simp [hupd, hw]⟩

theorem mmStepMax_mv_some (ev : Move → Score → Score → Score) (beta : Score)
    (st : MMAcc) (m : Move) (hst : st.mv.isSome = true) :
    (mmStepMax ev beta st m).mv.isSome = true := by
  unfold mmStepMax
  split
  · exact hst
  · by_cases hupd : Score.blt st.best (ev m st.bound beta) = true
    · simp [hupd]
    · simp [hupd, hst]

theorem mmStepMin_mv_some (ev : Move → Score → Score → Score) (alpha : Score)
    (st : MMAcc) (m : Move) (hst : st.mv.isSome = true) :
    (mmStepMin ev alpha st m).mv.isSome = true := by
  unfold mmStepMin
  split
  · exact hst
  · by_cases hupd : Score.blt (ev m alpha st.bound) st.best = true
    · simp [hupd]
    · simp [hupd, hst]

theorem foldl_best_fin (f : MMAcc → Move → MMAcc)
    (hf : ∀ st m, (∃ v, st.best = Score.fin v) → ∃ v, (f st m).best = Score.fin v) :
    ∀ (l : List Move) (st : MMAcc), (∃ v, st.best = Score.fin v) →
      ∃ v, (l.foldl f st).best = Score.fin v
  | [], _st, hst => hst
  | m :: rest, st, hst =>
    foldl_best_fin f hf rest (f st m) (hf st m hst)

theorem foldl_mv_some (f : MMAcc → Move → MMAcc)
    (hf : ∀ st m, st.mv.isSome = true → (f st m).mv.isSome = true) :
    ∀ (l : List Move) (st : MMAcc), st.mv.isSome = true →
      (l.foldl f st).mv.isSome = true
  | [], _st, hst => hst
  | m :: rest, st, hst =>
    foldl_mv_some f hf rest (f st m) (hf st m hst)

/-- The first iteration of the maximizing loop always records a move and a
finite score: the initial best is -Infinity and every recursive score is
finite, so the comparison `evaluation > maxEval` succeeds. -/
theorem mmStepMax_init (ev : Move → Score → Score → Score) (beta alpha : Score) (m : Move)
    (hev : ∀ (m2 : Move) (a b2 : Score), ∃ v, ev m2 a b2 = Score.fin v) :
    (mmStepMax ev beta ⟨Score.ninf, none, alpha, false⟩ m).mv.isSome = true ∧
    ∃ v, (mmStepMax ev beta ⟨Score.ninf, none, alpha, false⟩ m).best = Score.fin v := by
  obtain ⟨v, hv⟩ := hev m alpha beta
  unfold mmStepMax
  simp only [hv]
  have hblt : Score.blt Score.ninf (Score.fin v) = true := rfl
  simp [hblt]

theorem mmStepMin_init (ev : Move → Score → Score → Score) (alpha beta : Score) (m : Move)
    (hev : ∀ (m2 : Move) (a b2 : Score), ∃ v, ev m2 a b2 = Score.fin v) :
    (mmStepMin ev alpha ⟨Score.inf, none, beta, false⟩ m).mv.isSome = true ∧
    ∃ v, (mmStepMin ev alpha ⟨Score.inf, none, beta, false⟩ m).best = Score.fin v := by
  obtain ⟨v, hv⟩ := hev m alpha beta
  unfold mmStepMin
  simp only [hv]
  have hblt : Score.blt (Score.fin v) Score.inf = true := rfl
  simp [hblt]

/-- Every `minimax` score is finite: the infinities only ever seed the
alpha/beta window and the running extrema, never escape as results. -/
theorem minimax_fin : ∀ (d : Nat) (b : BoardState) (alpha beta : Score) (im : Bool),
    ∃ v, (minimax b d alpha beta im).1 = Score.fin v := by
  intro d
  induction d with
  | zero => exact fun b alpha beta im => ⟨evaluateBoard b, rfl⟩
  | succ d ih =>
    intro b alpha beta im
    simp only [minimax]
    by_cases hempty : getValidMoves b (if im = true then Color.red else Color.black) = []
    · rw [if_pos hempty]
      by_cases hchk : isCheck b (if im = true then Color.red else Color.black) = true
      · rw [if_pos hchk]
        cases im
        · exact ⟨100000, rfl⟩
        · exact ⟨-100000, rfl⟩
      · rw [if_neg hchk]
        exact ⟨0, rfl⟩
    · rw [if_neg hempty]
      have hev : ∀ (m2 : Move) (a b2 : Score), ∃ v,
          (fun (m : Move) (a b2 : Score) =>
            (minimax (simulateMove b m) d a b2 (!im)).1) m2 a b2 = Score.fin v :=
        fun m2 a b2 => ih (simulateMove b m2) a b2 (!im)
      obtain ⟨m0, rest, hs⟩ := List.exists_cons_of_ne_nil (sortMoves_ne_nil b _ hempty)
      by_cases him : im = true
      · rw [if_pos him, hs, List.foldl_cons]
        exact foldl_best_fin _ (fun st m hst => mmStepMax_best_fin _ beta st m hev hst) rest _
          (mmStepMax_init _ beta alpha m0 hev).2
      · rw [if_neg him, hs, List.foldl_cons]
        exact foldl_best_fin _ (fun st m hst => mmStepMin_best_fin _ alpha st m hev hst) rest _
          (mmStepMin_init _ alpha beta m0 hev).2

/-- At depth ≥ 1, a side with at least one legal move always gets a move
back from `minimax`. -/
theorem minimax_move_some (d : Nat) (b : BoardState) (alpha beta : Score) (im : Bool)
    (hne : getValidMoves b (if im = true then Color.red else Color.black) ≠ []) :
    (minimax b (d + 1) alpha beta im).2.isSome = true := by
  simp only [minimax]
  rw [if_neg hne]
  have hev : ∀ (m2 : Move) (a b2 : Score), ∃ v,
      (fun (m : Move) (a b2 : Score) =>
        (minimax (simulateMove b m) d a b2 (!im)).1) m2 a b2 = Score.fin v :=
    fun m2 a b2 => minimax_fin d (simulateMove b m2) a b2 (!im)
  obtain ⟨m0, rest, hs⟩ := List.exists_cons_of_ne_nil (sortMoves_ne_nil b _ hne)
  by_cases him : im = true
  · rw [if_pos him, hs, List.foldl_cons]
    exact foldl_mv_some _ (fun st m hst => mmStepMax_mv_some _ beta st m hst) rest _
      (mmStepMax_init _ beta alpha m0 hev).1
  · rw [if_neg him, hs, List.foldl_cons]
    exact foldl_mv_some _ (fun st m hst => mmStepMin_mv_some _ alpha st m hst) rest _
      (mmStepMin_init _ alpha beta m0 hev).1

/-- C9 counterexample: the claim quantifies over every depth, but at depth 0
`minimax` returns the static evaluation with no move, so `getBestMove`
returns `none` even though BLACK has legal moves. -/
theorem best_move_depth_zero_cex :
    getBestMove twoGeneralsBoard 0 = none ∧
    getValidMoves twoGeneralsBoard Color.black ≠ [] := by
  decide

/-- C9 amended: for every board and every depth ≥ 1, `getBestMove` (which
searches with BLACK as the root minimizing side) returns `none` exactly when
BLACK has no legal moves. -/
theorem best_move_none_iff (b : BoardState) (d : Nat) (hd : 1 ≤ d) :
    (getBestMove b d = none ↔ getValidMoves b Color.black = []) := by
  obtain ⟨e, rfl⟩ : ∃ e, d = e + 1 := ⟨d - 1, by omega⟩
  unfold getBestMove
  constructor
  · intro h
    by_contra hne
    have hs := minimax_move_some e b Score.ninf Score.inf false (by exact hne)
    rw [h] at hs
    simp at hs
  · intro h
    simp only [minimax]
    rw [if_pos (by exact h)]
    split <;> split <;> rfl

/-- C9 amended, witness: depth 1 on the two-Generals board. -/
theorem best_move_none_iff_witness :
    (getBestMove twoGeneralsBoard 1 = none ↔
      getValidMoves twoGeneralsBoard Color.black = []) :=
  best_move_none_iff twoGeneralsBoard 1 (by decide)
